import Mathlib

/-!
Verification of the picozip streaming ZIP writer (src/picozip.h).

The development shallowly embeds the library: machine integers are `Nat`
with explicit `% 2^16` / `% 2^32` where the C code truncates, the
destination sink callback is a function deciding whether a flush at a
given stream offset and size is fully accepted, `localtime` is an
explicit parameter producing a calendar decomposition, and the session
state (`struct picozip__file`) is a record holding the write offset, the
entry ledger and the bytes accepted by the destination so far.
-/

namespace Picozip

/-- Byte sequences; every byte produced by the embedded code is `< 256`. -/
abbrev Bytes := List Nat

/-- `PICOZIP__WRITE_LE16`: two little-endian bytes of a value
(each byte is the C cast `(uint8_t)(v >> k)`). -/
def le16 (v : Nat) : Bytes := [v % 256, (v >>> 8) % 256]

/-- `PICOZIP__WRITE_LE32`: four little-endian bytes of a value. -/
def le32 (v : Nat) : Bytes :=
  [v % 256, (v >>> 8) % 256, (v >>> 16) % 256, (v >>> 24) % 256]

/-- The calendar decomposition produced by `localtime` (`struct tm`
fields used by the code). -/
structure Tm where
  tm_sec : Nat
  tm_min : Nat
  tm_hour : Nat
  tm_mday : Nat
  tm_mon : Nat
  tm_year : Nat
deriving Repr, DecidableEq

/-- `picozip__time_to_dostime`, acting on the `struct tm` returned by
`localtime`: clamps timestamps before 1980 and packs DOS date and time
(result pair is `(dos_date, dos_time)`, each a `uint16_t`). -/
def picozip__time_to_dostime (tm : Tm) : Nat × Nat :=
  let tm := if tm.tm_year < 80 then
    { tm_year := 80, tm_sec := 0, tm_min := 0, tm_hour := 0, tm_mon := 0, tm_mday := 1 }
  else tm
  ((((tm.tm_year + 1900 - 1980) <<< 9) + ((tm.tm_mon + 1) <<< 5) + tm.tm_mday) % 65536,
   ((tm.tm_hour <<< 11) + (tm.tm_min <<< 5) + (tm.tm_sec >>> 1)) % 65536)

/-- `s_crc_table` from `picozip__crc32`, verbatim. -/
def s_crc_table : List Nat := [
  0x00000000, 0x77073096, 0xEE0E612C, 0x990951BA, 0x076DC419, 0x706AF48F, 0xE963A535,
  0x9E6495A3, 0x0EDB8832, 0x79DCB8A4, 0xE0D5E91E, 0x97D2D988, 0x09B64C2B, 0x7EB17CBD,
  0xE7B82D07, 0x90BF1D91, 0x1DB71064, 0x6AB020F2, 0xF3B97148, 0x84BE41DE, 0x1ADAD47D,
  0x6DDDE4EB, 0xF4D4B551, 0x83D385C7, 0x136C9856, 0x646BA8C0, 0xFD62F97A, 0x8A65C9EC,
  0x14015C4F, 0x63066CD9, 0xFA0F3D63, 0x8D080DF5, 0x3B6E20C8, 0x4C69105E, 0xD56041E4,
  0xA2677172, 0x3C03E4D1, 0x4B04D447, 0xD20D85FD, 0xA50AB56B, 0x35B5A8FA, 0x42B2986C,
  0xDBBBC9D6, 0xACBCF940, 0x32D86CE3, 0x45DF5C75, 0xDCD60DCF, 0xABD13D59, 0x26D930AC,
  0x51DE003A, 0xC8D75180, 0xBFD06116, 0x21B4F4B5, 0x56B3C423, 0xCFBA9599, 0xB8BDA50F,
  0x2802B89E, 0x5F058808, 0xC60CD9B2, 0xB10BE924, 0x2F6F7C87, 0x58684C11, 0xC1611DAB,
  0xB6662D3D, 0x76DC4190, 0x01DB7106, 0x98D220BC, 0xEFD5102A, 0x71B18589, 0x06B6B51F,
  0x9FBFE4A5, 0xE8B8D433, 0x7807C9A2, 0x0F00F934, 0x9609A88E, 0xE10E9818, 0x7F6A0DBB,
  0x086D3D2D, 0x91646C97, 0xE6635C01, 0x6B6B51F4, 0x1C6C6162, 0x856530D8, 0xF262004E,
  0x6C0695ED, 0x1B01A57B, 0x8208F4C1, 0xF50FC457, 0x65B0D9C6, 0x12B7E950, 0x8BBEB8EA,
  0xFCB9887C, 0x62DD1DDF, 0x15DA2D49, 0x8CD37CF3, 0xFBD44C65, 0x4DB26158, 0x3AB551CE,
  0xA3BC0074, 0xD4BB30E2, 0x4ADFA541, 0x3DD895D7, 0xA4D1C46D, 0xD3D6F4FB, 0x4369E96A,
  0x346ED9FC, 0xAD678846, 0xDA60B8D0, 0x44042D73, 0x33031DE5, 0xAA0A4C5F, 0xDD0D7CC9,
  0x5005713C, 0x270241AA, 0xBE0B1010, 0xC90C2086, 0x5768B525, 0x206F85B3, 0xB966D409,
  0xCE61E49F, 0x5EDEF90E, 0x29D9C998, 0xB0D09822, 0xC7D7A8B4, 0x59B33D17, 0x2EB40D81,
  0xB7BD5C3B, 0xC0BA6CAD, 0xEDB88320, 0x9ABFB3B6, 0x03B6E20C, 0x74B1D29A, 0xEAD54739,
  0x9DD277AF, 0x04DB2615, 0x73DC1683, 0xE3630B12, 0x94643B84, 0x0D6D6A3E, 0x7A6A5AA8,
  0xE40ECF0B, 0x9309FF9D, 0x0A00AE27, 0x7D079EB1, 0xF00F9344, 0x8708A3D2, 0x1E01F268,
  0x6906C2FE, 0xF762575D, 0x806567CB, 0x196C3671, 0x6E6B06E7, 0xFED41B76, 0x89D32BE0,
  0x10DA7A5A, 0x67DD4ACC, 0xF9B9DF6F, 0x8EBEEFF9, 0x17B7BE43, 0x60B08ED5, 0xD6D6A3E8,
  0xA1D1937E, 0x38D8C2C4, 0x4FDFF252, 0xD1BB67F1, 0xA6BC5767, 0x3FB506DD, 0x48B2364B,
  0xD80D2BDA, 0xAF0A1B4C, 0x36034AF6, 0x41047A60, 0xDF60EFC3, 0xA867DF55, 0x316E8EEF,
  0x4669BE79, 0xCB61B38C, 0xBC66831A, 0x256FD2A0, 0x5268E236, 0xCC0C7795, 0xBB0B4703,
  0x220216B9, 0x5505262F, 0xC5BA3BBE, 0xB2BD0B28, 0x2BB45A92, 0x5CB36A04, 0xC2D7FFA7,
  0xB5D0CF31, 0x2CD99E8B, 0x5BDEAE1D, 0x9B64C2B0, 0xEC63F226, 0x756AA39C, 0x026D930A,
  0x9C0906A9, 0xEB0E363F, 0x72076785, 0x05005713, 0x95BF4A82, 0xE2B87A14, 0x7BB12BAE,
  0x0CB61B38, 0x92D28E9B, 0xE5D5BE0D, 0x7CDCEFB7, 0x0BDBDF21, 0x86D3D2D4, 0xF1D4E242,
  0x68DDB3F8, 0x1FDA836E, 0x81BE16CD, 0xF6B9265B, 0x6FB077E1, 0x18B74777, 0x88085AE6,
  0xFF0F6A70, 0x66063BCA, 0x11010B5C, 0x8F659EFF, 0xF862AE69, 0x616BFFD3, 0x166CCF45,
  0xA00AE278, 0xD70DD2EE, 0x4E048354, 0x3903B3C2, 0xA7672661, 0xD06016F7, 0x4969474D,
  0x3E6E77DB, 0xAED16A4A, 0xD9D65ADC, 0x40DF0B66, 0x37D83BF0, 0xA9BCAE53, 0xDEBB9EC5,
  0x47B2CF7F, 0x30B5FFE9, 0xBDBDF21C, 0xCABAC28A, 0x53B39330, 0x24B4A3A6, 0xBAD03605,
  0xCDD70693, 0x54DE5729, 0x23D967BF, 0xB3667A2E, 0xC4614AB8, 0x5D681B02, 0x2A6F2B94,
  0xB40BBE37, 0xC30C8EA1, 0x5A05DF1B, 0x2D02EF8D]

/-- `PICOZIP__CRC_START` -/
def PICOZIP__CRC_START : Nat := 0

/-- One table lookup step of the CRC loop body:
`crc32 = (crc32 >> 8) ^ s_crc_table[(crc32 ^ ptr[i]) & 0xFF]`. -/
def picozip__crc_step (crc32 b : Nat) : Nat :=
  (crc32 >>> 8) ^^^ s_crc_table.getD ((crc32 ^^^ b) &&& 0xFF) 0

/-- The two loops of `picozip__crc32`: the first consumes four bytes per
iteration while at least four remain, the second consumes the rest one
byte at a time. -/
def picozip__crc_loop : Nat → Bytes → Nat
  | crc32, b0 :: b1 :: b2 :: b3 :: rest =>
      picozip__crc_loop
        (picozip__crc_step (picozip__crc_step (picozip__crc_step (picozip__crc_step crc32 b0) b1) b2) b3)
        rest
  | crc32, [] => crc32
  | crc32, [b0] => picozip__crc_step crc32 b0
  | crc32, [b0, b1] => picozip__crc_step (picozip__crc_step crc32 b0) b1
  | crc32, [b0, b1, b2] =>
      picozip__crc_step (picozip__crc_step (picozip__crc_step crc32 b0) b1) b2

/-- `picozip__crc32(ptr, buf_len, crc)`: complements the seed, folds the
bytes through the table, and complements the result (`~x` on a
`uint32_t` is `x ^ 0xFFFFFFFF`). -/
def picozip__crc32 (ptr : Bytes) (crc : Nat) : Nat :=
  picozip__crc_loop (crc ^^^ 0xFFFFFFFF) ptr ^^^ 0xFFFFFFFF

/-! ### Reference CRC-32 (from the spec's words)

"CRC-32 (polynomial 0xEDB88320, reflected, standard ZIP/PNG variant)":
the table entry for a byte is eight rounds of the reflected polynomial
division step, the accumulator starts at `0xFFFFFFFF` and is
complemented at the end. -/

/-- The reflected CRC-32 polynomial named by the spec. -/
def crcPoly : Nat := 0xEDB88320

/-- One reflected polynomial division round. -/
def crcRefRound (x : Nat) : Nat :=
  if x % 2 = 1 then (x / 2) ^^^ crcPoly else x / 2

/-- Reference table entry: eight rounds applied to the byte. -/
def crcRefByte (b : Nat) : Nat := crcRefRound^[8] b

/-- Reference per-byte accumulator step of the standard table
implementation. -/
def crcRefStep (c b : Nat) : Nat :=
  (c >>> 8) ^^^ crcRefByte ((c ^^^ b) &&& 0xFF)

/-- Reference (spec-side) CRC-32 of a byte sequence. -/
def crc32_ref (bs : Bytes) : Nat :=
  bs.foldl crcRefStep 0xFFFFFFFF ^^^ 0xFFFFFFFF

/-! ### CRC facts -/

set_option maxRecDepth 4096 in
theorem crc_table_entries : ∀ i < 256, s_crc_table.getD i 0 = crcRefByte i := by
  decide

theorem crc_step_eq_ref : picozip__crc_step = crcRefStep := by
  funext c b
  have h : (c ^^^ b) &&& 0xFF < 256 :=
    Nat.lt_succ_of_le (Nat.and_le_right)
  simp only [picozip__crc_step, crcRefStep, crc_table_entries _ h]

theorem crc_loop_eq_foldl :
    ∀ (n : Nat) (bs : Bytes), bs.length ≤ n → ∀ c,
      picozip__crc_loop c bs = bs.foldl picozip__crc_step c := by
  intro n
  induction n with
  | zero =>
    intro bs h c
    have : bs = [] := List.length_eq_zero.mp (Nat.le_zero.mp h)
    subst this
    rfl
  | succ n ih =>
    intro bs h c
    match bs with
    | [] => rfl
    | [b0] => rfl
    | [b0, b1] => rfl
    | [b0, b1, b2] => rfl
    | b0 :: b1 :: b2 :: b3 :: rest =>
      have hr : rest.length ≤ n := by
        simp only [List.length_cons] at h
        omega
      simp only [picozip__crc_loop, List.foldl_cons]
      exact ih rest hr _

theorem picozip__crc32_eq_foldl (bs : Bytes) (crc : Nat) :
    picozip__crc32 bs crc = bs.foldl picozip__crc_step (crc ^^^ 0xFFFFFFFF) ^^^ 0xFFFFFFFF := by
  unfold picozip__crc32
  rw [crc_loop_eq_foldl bs.length bs (Nat.le_refl _)]

theorem xor_mask_cancel (x : Nat) : (x ^^^ 0xFFFFFFFF) ^^^ 0xFFFFFFFF = x := by
  rw [Nat.xor_assoc, Nat.xor_self, Nat.xor_zero]

theorem picozip__crc32_append (a b : Bytes) (s : Nat) :
    picozip__crc32 (a ++ b) s = picozip__crc32 b (picozip__crc32 a s) := by
  rw [picozip__crc32_eq_foldl, picozip__crc32_eq_foldl, picozip__crc32_eq_foldl,
    List.foldl_append, xor_mask_cancel]

theorem picozip__crc32_nil (s : Nat) : picozip__crc32 [] s = s ^^^ 0xFFFFFFFF ^^^ 0xFFFFFFFF := rfl

theorem picozip__crc32_standard (b : Bytes) :
    picozip__crc32 b PICOZIP__CRC_START = crc32_ref b := by
  rw [picozip__crc32_eq_foldl, crc_step_eq_ref]
  rfl

/-- C1: with the fresh seed `PICOZIP__CRC_START = 0`, `picozip__crc32`
computes the standard reflected CRC-32 (polynomial `0xEDB88320`); the
empty sequence yields `0`; and folding a sequence chunk by chunk,
threading each result as the next seed, equals one call on the
concatenation. -/
theorem claim_C1 :
    (∀ b : Bytes, picozip__crc32 b PICOZIP__CRC_START = crc32_ref b)
    ∧ picozip__crc32 [] PICOZIP__CRC_START = 0
    ∧ ∀ (chunks : List Bytes) (s : Nat),
        chunks.foldl (fun acc c => picozip__crc32 c acc) s = picozip__crc32 chunks.flatten s := by
  refine ⟨?_, ?_, ?_⟩
  · exact picozip__crc32_standard
  · rfl
  · intro chunks
    induction chunks with
    | nil =>
      intro s
      simp only [List.foldl_nil, List.flatten_nil, picozip__crc32_nil, xor_mask_cancel]
    | cons c rest ih =>
      intro s
      simp only [List.foldl_cons, List.flatten_cons, ih, picozip__crc32_append]

/-! ### Constants (`#define`s of picozip.h) -/

def PICOZIP_OK : Nat := 0
def PICOZIP_EINVAL : Nat := 22
def PICOZIP_ENOMEM : Nat := 12
def PICOZIP_EIO : Nat := 5
def PICOZIP__LOCAL_MAGIC : Nat := 0x04034b50
def PICOZIP__CENTRAL_MAGIC : Nat := 0x02014b50
def PICOZIP__EOCD_MAGIC : Nat := 0x06054b50
def PICOZIP__MIN_VERSION : Nat := 0x14
def PICOZIP__TIMESTAMP_MAGIC : Nat := 0x5455
def PICOZIP__DATADESC_MAGIC : Nat := 0x08074b50
def PICOZIP__FLAG_DATADESC : Nat := 8
def PICOZIP__LOCAL_HEADER_SIZE : Nat := 30
def PICOZIP__CD_HEADER_SIZE : Nat := 46
def PICOZIP__EOCD_SIZE : Nat := 22
def PICOZIP__ATTR_SIZE : Nat := 4
def PICOZIP__LOCAL_TIMESTAMP_SIZE : Nat := 5
def PICOZIP__DATADESC_SIZE : Nat := 16
def PICOZIP_READ_BUF : Nat := 2048

/-! ### Data model -/

/-- `struct picozip__entry`: one ledger record. The C integer fields are
`uint16_t`/`uint32_t`; their values are kept in range by reducing
modulo `2^16`/`2^32` exactly where the C code assigns a wider value.
`metadata` is the variable-length blob filename ++ extra field ++
comment. -/
structure Entry where
  version_made : Nat
  version_extract : Nat
  flags : Nat
  comp_method : Nat
  mod_time : Nat
  crc32 : Nat
  comp_size : Nat
  uncomp_size : Nat
  filename_len : Nat
  extra_field_len : Nat
  comment_len : Nat
  internal_attr : Nat
  external_attr : Nat
  header_offset : Nat
  metadata : Bytes
deriving Repr, DecidableEq

/-- `struct picozip__file` together with the destination's view: `offset`
and the ledger are the C fields, while `out` records every byte the
destination sink has accepted (the write callback is external to the C
struct). -/
structure ZipFile where
  offset : Nat
  entries : List Entry
  out : Bytes
deriving Repr, DecidableEq

/-- A freshly created session (`picozip_new` zeroes the struct). -/
def zipInit : ZipFile := { offset := 0, entries := [], out := [] }

/-- A destination sink: decides whether the flush of a buffer of the
given size issued at the given stream offset is fully accepted
(`write_cb` returning the full size). A short write is a failure. -/
abbrev Sink := Nat → Nat → Bool

/-- The always-accepting destination (every write succeeds). -/
def sinkTrue : Sink := fun _ _ => true

/-- `PICOZIP__FLUSH`: on success the offset advances by the buffer size
and the destination receives the bytes; on failure nothing changes and
the enclosing operation bails out with `PICOZIP_EIO`. -/
def pzFlush (sink : Sink) (f : ZipFile) (src : Bytes) : Bool × ZipFile :=
  if sink f.offset src.length then
    (true, { f with offset := f.offset + src.length, out := f.out ++ src })
  else
    (false, f)

/-- The 9-byte extended-timestamp extra field written into
`entry->metadata` at offset `filename_len`: tag `0x5455`, sub-field
length 5, flag byte 1, then the modification time as `(uint32_t)`. -/
def tsExtraField (mod_time : Nat) : Bytes :=
  le16 PICOZIP__TIMESTAMP_MAGIC ++ le16 PICOZIP__LOCAL_TIMESTAMP_SIZE ++ [1]
    ++ le32 (mod_time % 2 ^ 32)

/-- The metadata blob as populated by both entry constructors:
filename, then the timestamp extra field, then the comment. -/
def entryMetadata (path : Bytes) (mod_time : Nat) (comment : Bytes) : Bytes :=
  path ++ tsExtraField mod_time ++ comment

/-- The ledger entry populated by `picozip_new_entry_mem_ex` (lines
429-450): flags 0, sizes and CRC computed up front from the content.
The stored CRC is `picozip__crc32(data, size, 0) ^ 0xFFFFFFFF`. -/
def mkEntryMem (offset : Nat) (path : Bytes) (data : Option Bytes) (mod_time : Nat)
    (comment : Bytes) : Entry :=
  { version_made := 0
    version_extract := PICOZIP__MIN_VERSION
    flags := 0
    comp_method := 0
    internal_attr := 0
    external_attr := 0
    header_offset := offset % 2 ^ 32
    mod_time := mod_time
    crc32 := (picozip__crc32 (data.getD []) PICOZIP__CRC_START ^^^ 0xFFFFFFFF) % 2 ^ 32
    comp_size := (data.getD []).length % 2 ^ 32
    uncomp_size := (data.getD []).length % 2 ^ 32
    filename_len := path.length % 2 ^ 16
    extra_field_len := PICOZIP__ATTR_SIZE + PICOZIP__LOCAL_TIMESTAMP_SIZE
    comment_len := comment.length % 2 ^ 16
    metadata := entryMetadata path mod_time comment }

/-- The ledger entry populated by `picozip_new_entry_file` (lines
643-662) before streaming: flags bit 3 set, CRC and both sizes zero
(set later in the data descriptor). -/
def mkEntryFile (offset : Nat) (path : Bytes) (mod_time : Nat) (comment : Bytes) : Entry :=
  { version_made := 0
    version_extract := PICOZIP__MIN_VERSION
    flags := PICOZIP__FLAG_DATADESC
    comp_method := 0
    internal_attr := 0
    external_attr := 0
    header_offset := offset % 2 ^ 32
    mod_time := mod_time
    crc32 := 0
    comp_size := 0
    uncomp_size := 0
    filename_len := path.length % 2 ^ 16
    extra_field_len := PICOZIP__ATTR_SIZE + PICOZIP__LOCAL_TIMESTAMP_SIZE
    comment_len := comment.length % 2 ^ 16
    metadata := entryMetadata path mod_time comment }

/-- The 30 fixed bytes of a local file header as laid out by
`picozip__write_local_entry` into the scratch buffer. `lt` is the
external `localtime`. -/
def localHeaderBytes (lt : Nat → Tm) (e : Entry) : Bytes :=
  let dd := picozip__time_to_dostime (lt e.mod_time)
  le32 PICOZIP__LOCAL_MAGIC ++ le16 e.version_extract ++ le16 e.flags
    ++ le16 e.comp_method ++ le16 dd.2 ++ le16 dd.1 ++ le32 e.crc32
    ++ le32 e.comp_size ++ le32 e.uncomp_size ++ le16 e.filename_len
    ++ le16 e.extra_field_len

/-- `picozip__write_local_entry`: flush the 30-byte header, then
`filename_len + extra_field_len` bytes of the metadata blob. -/
def picozip__write_local_entry (sink : Sink) (lt : Nat → Tm) (f : ZipFile) (e : Entry) :
    Bool × ZipFile :=
  match pzFlush sink f (localHeaderBytes lt e) with
  | (false, f1) => (false, f1)
  | (true, f1) => pzFlush sink f1 (e.metadata.take (e.filename_len + e.extra_field_len))

/-- `picozip_new_entry_mem_ex` (success, ENOMEM and EIO paths). The C
null-pointer `EINVAL` guard compares a pointer against the length its
caller supplies; in this embedding a slice carries its own length
(`data = none` is the NULL data pointer with size 0, legal for
directory markers), so the guard never fires and is omitted. `allocOk`
is the allocator's verdict for this call; on write failure
`picozip__free_last_entry` discards the just-appended ledger entry. -/
def picozip_new_entry_mem_ex (sink : Sink) (lt : Nat → Tm) (f : ZipFile) (path : Bytes)
    (data : Option Bytes) (mod_time : Nat) (comment : Bytes) (allocOk : Bool) :
    Nat × ZipFile :=
  if allocOk = false then (PICOZIP_ENOMEM, f)
  else
    let entry := mkEntryMem f.offset path data mod_time comment
    let f1 : ZipFile := { f with entries := f.entries ++ [entry] }
    match picozip__write_local_entry sink lt f1 entry with
    | (false, f2) => ( PICOZIP_EIO, { f2 with entries := f2.entries.dropLast })
    | (true, f2) =>
      match pzFlush sink f2 (data.getD []) with
      | (false, f3) => ( PICOZIP_EIO, { f3 with entries := f3.entries.dropLast })
      | (true, f3) => (PICOZIP_OK, f3)

/-- The content loop of `picozip_new_entry_file`: read up to
`PICOZIP_READ_BUF` bytes, fold them into the running CRC, flush them,
accumulate `file_size`, and continue while a full buffer was read.
Returns (success, state, running crc, file_size). -/
def picozip__stream_chunks (sink : Sink) (f : ZipFile) (crc32 file_size : Nat)
    (rest : Bytes) : Bool × ZipFile × Nat × Nat :=
  let chunk := rest.take PICOZIP_READ_BUF
  let crc1 := picozip__crc32 chunk crc32
  match pzFlush sink f chunk with
  | (false, f1) => (false, f1, crc1, file_size)
  | (true, f1) =>
    if h : chunk.length = PICOZIP_READ_BUF then
      picozip__stream_chunks sink f1 crc1 (file_size + chunk.length)
        (rest.drop PICOZIP_READ_BUF)
    else
      (true, f1, crc1, file_size + chunk.length)
termination_by rest.length
decreasing_by
  unfold chunk at h
  simp only [List.length_take, PICOZIP_READ_BUF] at h
  simp only [List.length_drop, PICOZIP_READ_BUF]
  omega

/-- The 16-byte data descriptor written after a streamed entry's
content (lines 689-693). -/
def dataDescBytes (e : Entry) : Bytes :=
  le32 PICOZIP__DATADESC_MAGIC ++ le32 e.crc32 ++ le32 e.comp_size ++ le32 e.uncomp_size

/-- `picozip_new_entry_file`: local header with placeholder CRC/sizes,
streamed content, then the data descriptor; the true CRC and size are
backfilled into the ledger entry. `content` is the byte stream the
`FILE*` source yields; `mod_time` is the `fstat` modification time. -/
def picozip_new_entry_file (sink : Sink) (lt : Nat → Tm) (f : ZipFile) (path : Bytes)
    (content : Bytes) (mod_time : Nat) (comment : Bytes) (allocOk : Bool) :
    Nat × ZipFile :=
  if allocOk = false then (PICOZIP_ENOMEM, f)
  else
    let entry := mkEntryFile f.offset path mod_time comment
    let f1 : ZipFile := { f with entries := f.entries ++ [entry] }
    match picozip__write_local_entry sink lt f1 entry with
    | (false, f2) => ( PICOZIP_EIO, { f2 with entries := f2.entries.dropLast })
    | (true, f2) =>
      match picozip__stream_chunks sink f2 PICOZIP__CRC_START 0 content with
      | (false, f3, _, _) => ( PICOZIP_EIO, { f3 with entries := f3.entries.dropLast })
      | (true, f3, crc1, file_size) =>
        let entry1 : Entry := { entry with
          crc32 := (crc1 ^^^ 0xFFFFFFFF) % 2 ^ 32
          comp_size := file_size % 2 ^ 32
          uncomp_size := file_size % 2 ^ 32 }
        let f4 : ZipFile := { f3 with entries := f3.entries.dropLast ++ [entry1] }
        match pzFlush sink f4 (dataDescBytes entry1) with
        | (false, f5) => ( PICOZIP_EIO, { f5 with entries := f5.entries.dropLast })
        | (true, f5) => (PICOZIP_OK, f5)

/-- The 46 fixed bytes of one central-directory record as laid out by
`picozip_end_ex` (lines 487-504). -/
def cdHeaderBytes (lt : Nat → Tm) (e : Entry) : Bytes :=
  let dd := picozip__time_to_dostime (lt e.mod_time)
  le32 PICOZIP__CENTRAL_MAGIC ++ le16 e.version_made ++ le16 e.version_extract
    ++ le16 e.flags ++ le16 e.comp_method ++ le16 dd.2 ++ le16 dd.1
    ++ le32 e.crc32 ++ le32 e.comp_size ++ le32 e.uncomp_size
    ++ le16 e.filename_len ++ le16 e.extra_field_len ++ le16 e.comment_len
    ++ le16 0 ++ le16 e.internal_attr ++ le32 e.external_attr
    ++ le32 e.header_offset

/-- The central-directory loop of `picozip_end_ex`: per ledger entry,
flush the 46-byte record then `filename_len + extra_field_len +
comment_len` bytes of metadata, accumulating `cd_size`. -/
def picozip__write_cd_loop (sink : Sink) (lt : Nat → Tm) (f : ZipFile) (cd_size : Nat) :
    List Entry → Bool × ZipFile × Nat
  | [] => (true, f, cd_size)
  | e :: rest =>
    match pzFlush sink f (cdHeaderBytes lt e) with
    | (false, f1) => (false, f1, cd_size)
    | (true, f1) =>
      match pzFlush sink f1
          (e.metadata.take (e.filename_len + e.extra_field_len + e.comment_len)) with
      | (false, f2) => (false, f2, cd_size)
      | (true, f2) =>
        picozip__write_cd_loop sink lt f2
          (cd_size + PICOZIP__CD_HEADER_SIZE + e.filename_len + e.extra_field_len
            + e.comment_len) rest

/-- The 22-byte end-of-central-directory record (lines 510-517). -/
def eocdBytes (num_entries cd_size cd_offset comment_len : Nat) : Bytes :=
  le32 PICOZIP__EOCD_MAGIC ++ le16 0 ++ le16 0 ++ le16 num_entries ++ le16 num_entries
    ++ le32 cd_size ++ le32 cd_offset ++ le16 comment_len

/-- `picozip_end_ex`: capture `cd_offset`, write every central-directory
record in ledger order, then the EOCD, then the archive comment when
its pointer is non-null (`comment = none` is the NULL pointer, as
passed by `picozip_end`). -/
def picozip_end_ex (sink : Sink) (lt : Nat → Tm) (f : ZipFile) (comment : Option Bytes) :
    Nat × ZipFile :=
  let cd_offset := f.offset
  match picozip__write_cd_loop sink lt f 0 f.entries with
  | (false, f1, _) => ( PICOZIP_EIO, f1)
  | (true, f1, cd_size) =>
    match pzFlush sink f1
        (eocdBytes f.entries.length cd_size cd_offset (comment.getD []).length) with
    | (false, f2) => ( PICOZIP_EIO, f2)
    | (true, f2) =>
      match comment with
      | none => (PICOZIP_OK, f2)
      | some c =>
        match pzFlush sink f2 c with
        | (false, f3) => ( PICOZIP_EIO, f3)
        | (true, f3) => (PICOZIP_OK, f3)

/-- `picozip_end`: `picozip_end_ex(file, NULL, 0)`. -/
def picozip_end (sink : Sink) (lt : Nat → Tm) (f : ZipFile) : Nat × ZipFile :=
  picozip_end_ex sink lt f none

/-! ### Success-path characterizations (always-accepting destination) -/

/-- Bytes a successful `picozip__write_local_entry` emits for an entry. -/
def localBlock (lt : Nat → Tm) (e : Entry) : Bytes :=
  localHeaderBytes lt e ++ e.metadata.take (e.filename_len + e.extra_field_len)

/-- Bytes `picozip_end_ex` emits for one central-directory record. -/
def cdBlock (lt : Nat → Tm) (e : Entry) : Bytes :=
  cdHeaderBytes lt e ++ e.metadata.take (e.filename_len + e.extra_field_len + e.comment_len)

/-- Bytes of the whole central directory, in ledger order. -/
def cdBlocks (lt : Nat → Tm) (es : List Entry) : Bytes :=
  (es.map (cdBlock lt)).flatten

/-- The `cd_size` counter `picozip_end_ex` accumulates. -/
def cdSizeCount (es : List Entry) : Nat :=
  es.foldr (fun e acc =>
    PICOZIP__CD_HEADER_SIZE + e.filename_len + e.extra_field_len + e.comment_len + acc) 0

theorem pzFlush_sinkTrue (f : ZipFile) (src : Bytes) :
    pzFlush sinkTrue f src =
      (true, { f with offset := f.offset + src.length, out := f.out ++ src }) := rfl

theorem localHeaderBytes_length (lt : Nat → Tm) (e : Entry) :
    (localHeaderBytes lt e).length = PICOZIP__LOCAL_HEADER_SIZE := by
  simp [localHeaderBytes, le16, le32, PICOZIP__LOCAL_HEADER_SIZE]

theorem cdHeaderBytes_length (lt : Nat → Tm) (e : Entry) :
    (cdHeaderBytes lt e).length = PICOZIP__CD_HEADER_SIZE := by
  simp [cdHeaderBytes, le16, le32, PICOZIP__CD_HEADER_SIZE]

theorem eocdBytes_length (n s o c : Nat) :
    (eocdBytes n s o c).length = PICOZIP__EOCD_SIZE := by
  simp [eocdBytes, le16, le32, PICOZIP__EOCD_SIZE]

theorem dataDescBytes_length (e : Entry) :
    (dataDescBytes e).length = PICOZIP__DATADESC_SIZE := by
  simp [dataDescBytes, le32, PICOZIP__DATADESC_SIZE]

theorem write_local_entry_sinkTrue (lt : Nat → Tm) (f : ZipFile) (e : Entry) :
    picozip__write_local_entry sinkTrue lt f e =
      (true, { f with
                offset := f.offset + (localBlock lt e).length,
                out := f.out ++ localBlock lt e }) := by
  simp [picozip__write_local_entry, pzFlush_sinkTrue, localBlock, Nat.add_assoc]

theorem new_entry_mem_ok (lt : Nat → Tm) (f : ZipFile) (path : Bytes) (data : Option Bytes)
    (mod_time : Nat) (comment : Bytes) :
    picozip_new_entry_mem_ex sinkTrue lt f path data mod_time comment true =
      (PICOZIP_OK,
        { offset := f.offset
            + ((localBlock lt (mkEntryMem f.offset path data mod_time comment)).length
              + (data.getD []).length),
          entries := f.entries ++ [mkEntryMem f.offset path data mod_time comment],
          out := (f.out ++ localBlock lt (mkEntryMem f.offset path data mod_time comment))
            ++ data.getD [] }) := by
  simp [picozip_new_entry_mem_ex, write_local_entry_sinkTrue, pzFlush_sinkTrue,
    Nat.add_assoc, List.append_assoc]

set_option maxRecDepth 8192 in
theorem stream_chunks_sinkTrue :
    ∀ (k : Nat) (rest : Bytes), rest.length ≤ k → ∀ (f : ZipFile) (crc32 file_size : Nat),
      picozip__stream_chunks sinkTrue f crc32 file_size rest =
        (true, { f with
                  offset := f.offset + rest.length,
                  out := f.out ++ rest },
         picozip__crc32 rest crc32, file_size + rest.length) := by
  intro k
  induction k with
  | zero =>
    intro rest h f crc32 file_size
    have hr : rest = [] := List.length_eq_zero.mp (Nat.le_zero.mp h)
    subst hr
    unfold picozip__stream_chunks
    simp [pzFlush_sinkTrue, PICOZIP_READ_BUF]
  | succ k ih =>
    intro rest h f crc32 file_size
    unfold picozip__stream_chunks
    simp only [pzFlush_sinkTrue]
    by_cases hlen : (rest.take PICOZIP_READ_BUF).length = PICOZIP_READ_BUF
    · have h2048 : PICOZIP_READ_BUF ≤ rest.length := by
        simp only [List.length_take, PICOZIP_READ_BUF] at hlen ⊢
        omega
      have hdrop : (rest.drop PICOZIP_READ_BUF).length ≤ k := by
        simp only [List.length_drop]
        simp only [PICOZIP_READ_BUF] at h2048 ⊢
        omega
      simp only [hlen, dif_pos, ih _ hdrop]
      rw [← picozip__crc32_append, List.take_append_drop]
      have hoff : f.offset + PICOZIP_READ_BUF + (rest.drop PICOZIP_READ_BUF).length
          = f.offset + rest.length := by
        simp only [List.length_drop]
        simp only [PICOZIP_READ_BUF] at h2048 ⊢
        omega
      have hfsz : file_size + PICOZIP_READ_BUF + (rest.drop PICOZIP_READ_BUF).length
          = file_size + rest.length := by
        simp only [List.length_drop]
        simp only [PICOZIP_READ_BUF] at h2048 ⊢
        omega
      have hout : (f.out ++ rest.take PICOZIP_READ_BUF) ++ rest.drop PICOZIP_READ_BUF
          = f.out ++ rest := by
        rw [List.append_assoc, List.take_append_drop]
      rw [hoff, hfsz, hout]
    · have hle : rest.length ≤ PICOZIP_READ_BUF := by
        simp only [List.length_take, PICOZIP_READ_BUF] at hlen ⊢
        omega
      rw [List.take_of_length_le hle] at hlen ⊢
      simp [hlen]

/-- The ledger entry of a streamed add after the data descriptor backfill
(lines 685-686): true CRC and sizes replace the placeholders. -/
def fileFinalEntry (offset : Nat) (path content : Bytes) (mod_time : Nat)
    (comment : Bytes) : Entry :=
  { mkEntryFile offset path mod_time comment with
    crc32 := (picozip__crc32 content PICOZIP__CRC_START ^^^ 0xFFFFFFFF) % 2 ^ 32,
    comp_size := content.length % 2 ^ 32,
    uncomp_size := content.length % 2 ^ 32 }

theorem new_entry_file_ok (lt : Nat → Tm) (f : ZipFile) (path content : Bytes)
    (mod_time : Nat) (comment : Bytes) :
    picozip_new_entry_file sinkTrue lt f path content mod_time comment true =
      (PICOZIP_OK,
        { offset := f.offset + (localBlock lt (mkEntryFile f.offset path mod_time comment)).length
            + content.length + PICOZIP__DATADESC_SIZE,
          entries := f.entries ++ [fileFinalEntry f.offset path content mod_time comment],
          out := ((f.out ++ localBlock lt (mkEntryFile f.offset path mod_time comment))
            ++ content) ++ dataDescBytes (fileFinalEntry f.offset path content mod_time comment) }) := by
  have hstream := stream_chunks_sinkTrue content.length content (Nat.le_refl _)
  simp only [picozip_new_entry_file, write_local_entry_sinkTrue, hstream,
    pzFlush_sinkTrue, List.dropLast_concat, dataDescBytes_length]
  simp [fileFinalEntry, PICOZIP__CRC_START]

theorem write_cd_loop_sinkTrue (lt : Nat → Tm) :
    ∀ (es : List Entry) (f : ZipFile) (n : Nat),
      picozip__write_cd_loop sinkTrue lt f n es =
        (true, { f with
                  offset := f.offset + (cdBlocks lt es).length,
                  out := f.out ++ cdBlocks lt es },
         n + cdSizeCount es) := by
  intro es
  induction es with
  | nil =>
    intro f n
    simp [picozip__write_cd_loop, cdBlocks, cdSizeCount]
  | cons e rest ih =>
    intro f n
    simp only [picozip__write_cd_loop, pzFlush_sinkTrue, ih]
    have hblocks : cdBlocks lt (e :: rest) = cdBlock lt e ++ cdBlocks lt rest := by
      simp [cdBlocks]
    have hcount : cdSizeCount (e :: rest) =
        PICOZIP__CD_HEADER_SIZE + e.filename_len + e.extra_field_len + e.comment_len
          + cdSizeCount rest := by
      simp [cdSizeCount]
    rw [hblocks, hcount]
    simp only [Prod.mk.injEq, ZipFile.mk.injEq, true_and]
    refine ⟨⟨?_, ?_⟩, ?_⟩
    · simp only [cdBlock, List.length_append, List.length_take]
      omega
    · simp [cdBlock, List.append_assoc]
    · omega

theorem end_ex_sinkTrue (lt : Nat → Tm) (f : ZipFile) (comment : Option Bytes) :
    picozip_end_ex sinkTrue lt f comment =
      (PICOZIP_OK,
        { offset := f.offset + (cdBlocks lt f.entries).length + PICOZIP__EOCD_SIZE
            + (comment.getD []).length,
          entries := f.entries,
          out := ((f.out ++ cdBlocks lt f.entries)
            ++ eocdBytes f.entries.length (cdSizeCount f.entries) f.offset
              (comment.getD []).length) ++ comment.getD [] }) := by
  simp only [picozip_end_ex, write_cd_loop_sinkTrue, pzFlush_sinkTrue, eocdBytes_length,
    Nat.zero_add]
  cases comment with
  | none => simp
  | some c => simp

/-! ### Metadata-blob and entries-preservation lemmas -/

theorem tsExtraField_length (mt : Nat) : (tsExtraField mt).length = 9 := by
  simp [tsExtraField, le16, le32]

theorem entryMetadata_take_fn_ex (path : Bytes) (mt : Nat) (comment : Bytes) :
    (entryMetadata path mt comment).take (path.length + 9) = path ++ tsExtraField mt := by
  rw [entryMetadata, List.append_assoc, List.take_append_eq_append_take]
  have h1 : path.length + 9 - path.length = 9 := by omega
  rw [List.take_of_length_le (by omega), h1, List.take_append_eq_append_take,
    List.take_of_length_le (by rw [tsExtraField_length]), tsExtraField_length]
  simp

theorem entryMetadata_take_all (path : Bytes) (mt : Nat) (comment : Bytes) :
    (entryMetadata path mt comment).take (path.length + 9 + comment.length)
      = path ++ tsExtraField mt ++ comment := by
  have hlen : (entryMetadata path mt comment).length = path.length + 9 + comment.length := by
    simp [entryMetadata, tsExtraField_length]
    omega
  rw [← hlen, List.take_length, entryMetadata, List.append_assoc]

theorem mkEntryMem_fn_le (offset : Nat) (path : Bytes) (data : Option Bytes) (mt : Nat)
    (comment : Bytes) :
    (mkEntryMem offset path data mt comment).filename_len
        + (mkEntryMem offset path data mt comment).extra_field_len
        + (mkEntryMem offset path data mt comment).comment_len
      ≤ (mkEntryMem offset path data mt comment).metadata.length := by
  have h1 : path.length % 2 ^ 16 ≤ path.length := Nat.mod_le _ _
  have h2 : comment.length % 2 ^ 16 ≤ comment.length := Nat.mod_le _ _
  simp only [mkEntryMem, entryMetadata, List.length_append, tsExtraField_length,
    PICOZIP__ATTR_SIZE, PICOZIP__LOCAL_TIMESTAMP_SIZE]
  omega

theorem mkEntryFile_fn_le (offset : Nat) (path : Bytes) (mt : Nat) (comment : Bytes) :
    (mkEntryFile offset path mt comment).filename_len
        + (mkEntryFile offset path mt comment).extra_field_len
        + (mkEntryFile offset path mt comment).comment_len
      ≤ (mkEntryFile offset path mt comment).metadata.length := by
  have h1 : path.length % 2 ^ 16 ≤ path.length := Nat.mod_le _ _
  have h2 : comment.length % 2 ^ 16 ≤ comment.length := Nat.mod_le _ _
  simp only [mkEntryFile, entryMetadata, List.length_append, tsExtraField_length,
    PICOZIP__ATTR_SIZE, PICOZIP__LOCAL_TIMESTAMP_SIZE]
  omega

theorem pzFlush_entries (sink : Sink) (f : ZipFile) (src : Bytes) :
    (pzFlush sink f src).2.entries = f.entries := by
  unfold pzFlush
  split <;> rfl

theorem write_local_entry_entries (sink : Sink) (lt : Nat → Tm) (f : ZipFile) (e : Entry) :
    (picozip__write_local_entry sink lt f e).2.entries = f.entries := by
  unfold picozip__write_local_entry
  have h1 := pzFlush_entries sink f (localHeaderBytes lt e)
  cases hflush : pzFlush sink f (localHeaderBytes lt e) with
  | mk ok f1 =>
    cases ok with
    | false =>
      simp only
      rw [hflush] at h1
      exact h1
    | true =>
      simp only
      rw [hflush] at h1
      rw [pzFlush_entries, h1]

theorem stream_chunks_entries (sink : Sink) :
    ∀ (k : Nat) (rest : Bytes), rest.length ≤ k → ∀ (f : ZipFile) (crc32 file_size : Nat),
      (picozip__stream_chunks sink f crc32 file_size rest).2.1.entries = f.entries := by
  intro k
  induction k with
  | zero =>
    intro rest h f crc32 file_size
    have hr : rest = [] := List.length_eq_zero.mp (Nat.le_zero.mp h)
    subst hr
    unfold picozip__stream_chunks
    dsimp only
    split
    next f1 heq =>
      have h1 := pzFlush_entries sink f (([] : Bytes).take PICOZIP_READ_BUF)
      rw [heq] at h1
      exact h1
    next f1 heq =>
      have h1 := pzFlush_entries sink f (([] : Bytes).take PICOZIP_READ_BUF)
      rw [heq] at h1
      split
      next hlen => simp [PICOZIP_READ_BUF] at hlen
      next => exact h1
  | succ k ih =>
    intro rest h f crc32 file_size
    unfold picozip__stream_chunks
    dsimp only
    split
    next f1 heq =>
      have h1 := pzFlush_entries sink f (rest.take PICOZIP_READ_BUF)
      rw [heq] at h1
      exact h1
    next f1 heq =>
      have h1 := pzFlush_entries sink f (rest.take PICOZIP_READ_BUF)
      rw [heq] at h1
      split
      next hlen =>
        have hdrop : (rest.drop PICOZIP_READ_BUF).length ≤ k := by
          simp only [List.length_take, PICOZIP_READ_BUF] at hlen
          simp only [List.length_drop, PICOZIP_READ_BUF]
          omega
        rw [ih _ hdrop, h1]
      next => exact h1

/-! ### Concrete instances used by counterexamples and witnesses -/

/-- A fixed calendar decomposition (1980-01-01) for concrete runs. -/
def tmFixed : Tm := { tm_sec := 0, tm_min := 0, tm_hour := 0, tm_mday := 1, tm_mon := 0, tm_year := 80 }

/-- A concrete `localtime` for concrete runs. -/
def ltFixed : Nat → Tm := fun _ => tmFixed

/-! ### Claim C6 -/

/-- C6 (counterexample): finalizing the empty session twice does not
fail with an invalid-state error on the second call — it returns
`PICOZIP_OK` and writes another 22-byte EOCD (output grows from 22 to
44 bytes). The code keeps no session state machine at all. -/
theorem claim_C6_counterexample :
    (picozip_end_ex sinkTrue ltFixed (picozip_end_ex sinkTrue ltFixed zipInit none).2 none).1
        = PICOZIP_OK
    ∧ (picozip_end_ex sinkTrue ltFixed
        (picozip_end_ex sinkTrue ltFixed zipInit none).2 none).2.out.length = 44
    ∧ PICOZIP_OK ≠ PICOZIP_EINVAL := by
  decide

/-- C6 (amended): `picozip_end_ex` tracks no state: whenever every
destination write is accepted it returns `PICOZIP_OK` — including on a
session that was already finalized — and appends another central
directory and EOCD to the output instead of rejecting the call. -/
theorem claim_C6_amended (lt : Nat → Tm) (st : ZipFile) (comment : Option Bytes) :
    (picozip_end_ex sinkTrue lt st comment).1 = PICOZIP_OK
    ∧ (picozip_end_ex sinkTrue lt st comment).2.out
        = ((st.out ++ cdBlocks lt st.entries)
          ++ eocdBytes st.entries.length (cdSizeCount st.entries) st.offset
            (comment.getD []).length) ++ comment.getD [] := by
  rw [end_ex_sinkTrue]
  exact ⟨rfl, rfl⟩

/-! ### Claim C7 -/

/-- C7 (counterexample): adding the directory marker `d/` (path
`[0x64, 0x2F]`, null data, zero length) succeeds, but the CRC-32 stored
in the ledger — and rendered at bytes 14..17 of the local header and
16..19 of the central-directory record — is `0xFFFFFFFF`, not `0`. -/
theorem claim_C7_counterexample :
    (picozip_new_entry_mem_ex sinkTrue ltFixed zipInit [100, 47] none 0 [] true).1 = PICOZIP_OK
    ∧ (picozip_new_entry_mem_ex sinkTrue ltFixed zipInit [100, 47] none 0 [] true).2.entries.map
        Entry.crc32 = [0xFFFFFFFF]
    ∧ ((localHeaderBytes ltFixed (mkEntryMem 0 [100, 47] none 0 [])).drop 14).take 4
        = [0xFF, 0xFF, 0xFF, 0xFF]
    ∧ ((cdHeaderBytes ltFixed (mkEntryMem 0 [100, 47] none 0 [])).drop 16).take 4
        = [0xFF, 0xFF, 0xFF, 0xFF]
    ∧ (0xFFFFFFFF : Nat) ≠ 0 := by
  decide

/-- C7 (amended): a directory marker added through the known-size
protocol is accepted without error and its ledger entry has both size
fields zero, but its CRC-32 field holds `0xFFFFFFFF` — the bitwise
complement of the standard CRC-32 (0) of empty content — because the
code stores `picozip__crc32(data, size, 0) ^ 0xFFFFFFFF`. -/
theorem claim_C7_amended (lt : Nat → Tm) (st : ZipFile) (path : Bytes) (mt : Nat)
    (comment : Bytes) :
    (picozip_new_entry_mem_ex sinkTrue lt st path none mt comment true).1 = PICOZIP_OK
    ∧ (picozip_new_entry_mem_ex sinkTrue lt st path none mt comment true).2.entries
        = st.entries ++ [mkEntryMem st.offset path none mt comment]
    ∧ (mkEntryMem st.offset path none mt comment).comp_size = 0
    ∧ (mkEntryMem st.offset path none mt comment).uncomp_size = 0
    ∧ (mkEntryMem st.offset path none mt comment).crc32 = 0xFFFFFFFF := by
  refine ⟨?_, ?_, ?_, ?_, ?_⟩
  · rw [new_entry_mem_ok]
  · rw [new_entry_mem_ok]
  · rfl
  · rfl
  · rfl

theorem mkEntryMem_filename_len (o : Nat) (p : Bytes) (d : Option Bytes) (mt : Nat)
    (c : Bytes) :
    Entry.filename_len (mkEntryMem o p d mt c) = p.length % 2 ^ 16 := rfl

/-! ### Claim C9 -/

/-- C9 (counterexample): a path of 65536 bytes is accepted, but the
`uint16_t` `filename_len` recorded in the ledger (and rendered into
both headers) wraps to `0`, not the true length 65536. -/
theorem claim_C9_counterexample :
    (picozip_new_entry_mem_ex sinkTrue ltFixed zipInit (List.replicate 65536 97) (some [])
        0 [] true).1 = PICOZIP_OK
    ∧ (picozip_new_entry_mem_ex sinkTrue ltFixed zipInit (List.replicate 65536 97) (some [])
        0 [] true).2.entries.map Entry.filename_len = [0]
    ∧ (List.replicate 65536 97 : Bytes).length = 65536
    ∧ (65536 : Nat) ≠ 0 := by
  refine ⟨?_, ?_, by rw [List.length_replicate], by decide⟩
  · rw [new_entry_mem_ok]
  · rw [new_entry_mem_ok]
    dsimp only [zipInit]
    rw [List.nil_append, List.map_cons, List.map_nil, mkEntryMem_filename_len,
      List.length_replicate]
    decide

/-- C9 (amended): whenever the path and comment lengths fit the ZIP
format's 16-bit fields (< 65536), the recorded `filename_len`,
`extra_field_len` and `comment_len` equal the true lengths of the
encoded filename, 9-byte timestamp extra field and comment, in both
the known-size and the streamed constructors, and the bytes flushed for
the local header's variable part are exactly the filename followed by
the timestamp field. -/
theorem claim_C9_amended (offset : Nat) (path : Bytes) (data : Option Bytes) (mt : Nat)
    (comment : Bytes) (hp : path.length < 2 ^ 16) (hc : comment.length < 2 ^ 16) :
    (mkEntryMem offset path data mt comment).filename_len = path.length
    ∧ (mkEntryMem offset path data mt comment).extra_field_len = (tsExtraField mt).length
    ∧ (mkEntryMem offset path data mt comment).comment_len = comment.length
    ∧ (mkEntryFile offset path mt comment).filename_len = path.length
    ∧ (mkEntryFile offset path mt comment).extra_field_len = (tsExtraField mt).length
    ∧ (mkEntryFile offset path mt comment).comment_len = comment.length
    ∧ (mkEntryMem offset path data mt comment).metadata.take
        ((mkEntryMem offset path data mt comment).filename_len
          + (mkEntryMem offset path data mt comment).extra_field_len)
        = path ++ tsExtraField mt := by
  have hfn : path.length % 2 ^ 16 = path.length := Nat.mod_eq_of_lt hp
  have hcm : comment.length % 2 ^ 16 = comment.length := Nat.mod_eq_of_lt hc
  refine ⟨?_, ?_, ?_, ?_, ?_, ?_, ?_⟩
  · exact hfn
  · rw [tsExtraField_length]
    rfl
  · exact hcm
  · exact hfn
  · rw [tsExtraField_length]
    rfl
  · exact hcm
  · show (entryMetadata path mt comment).take
        (path.length % 2 ^ 16 + (PICOZIP__ATTR_SIZE + PICOZIP__LOCAL_TIMESTAMP_SIZE))
        = path ++ tsExtraField mt
    rw [hfn]
    exact entryMetadata_take_fn_ex path mt comment

/-- C9 (witness): the amended statement applied at a concrete one-byte
path with an empty comment. -/
theorem claim_C9_witness :
    ([97] : Bytes).length < 2 ^ 16 ∧ ([] : Bytes).length < 2 ^ 16
    ∧ (mkEntryMem 0 [97] none 0 []).filename_len = ([97] : Bytes).length :=
  ⟨by decide, by decide, (claim_C9_amended 0 [97] none 0 [] (by decide) (by decide)).1⟩

/-! ### Claim C3 -/

/-- The run of bytes the two header layouts share verbatim: version
needed, flags, method, DOS time and date, CRC-32, both sizes, filename
length, extra-field length — local header bytes 4..29 and
central-directory bytes 6..31. -/
def sharedFieldTail (lt : Nat → Tm) (e : Entry) : Bytes :=
  let dd := picozip__time_to_dostime (lt e.mod_time)
  le16 e.version_extract ++ le16 e.flags ++ le16 e.comp_method ++ le16 dd.2 ++ le16 dd.1
    ++ le32 e.crc32 ++ le32 e.comp_size ++ le32 e.uncomp_size ++ le16 e.filename_len
    ++ le16 e.extra_field_len

/-- An entry with its CRC and sizes replaced by the streamed-protocol
placeholders. -/
def zeroCrcSizes (e : Entry) : Entry :=
  { e with crc32 := 0, comp_size := 0, uncomp_size := 0 }

/-- C3: every field of the local header reappears byte-identically in
the central-directory record rendered from the same ledger entry: the
local header is magic ++ shared-tail and the CD record is magic ++
version-made ++ the same shared-tail ++ the CD-only fields; the
variable part flushed after the CD fixed record extends byte-for-byte
the variable part flushed after the local header; a streamed entry's
local header is rendered from exactly the backfilled entry with CRC and
sizes zeroed (all other fields equal); and for entries built by the
constructors with in-range lengths the shared variable part is the
filename followed by the identical 9-byte extended-timestamp field in
both records. -/
theorem claim_C3 :
    (∀ (lt : Nat → Tm) (e : Entry),
        localHeaderBytes lt e = le32 PICOZIP__LOCAL_MAGIC ++ sharedFieldTail lt e
        ∧ cdHeaderBytes lt e = le32 PICOZIP__CENTRAL_MAGIC ++ le16 e.version_made
            ++ sharedFieldTail lt e ++ le16 e.comment_len ++ le16 0 ++ le16 e.internal_attr
            ++ le32 e.external_attr ++ le32 e.header_offset
        ∧ (e.metadata.take (e.filename_len + e.extra_field_len + e.comment_len)).take
            (e.filename_len + e.extra_field_len)
            = e.metadata.take (e.filename_len + e.extra_field_len))
    ∧ (∀ (offset : Nat) (path content : Bytes) (mt : Nat) (comment : Bytes),
        mkEntryFile offset path mt comment
          = zeroCrcSizes (fileFinalEntry offset path content mt comment))
    ∧ (∀ (offset : Nat) (path : Bytes) (data : Option Bytes) (mt : Nat) (comment : Bytes),
        path.length < 2 ^ 16 → comment.length < 2 ^ 16 →
        (mkEntryMem offset path data mt comment).metadata.take
            ((mkEntryMem offset path data mt comment).filename_len
              + (mkEntryMem offset path data mt comment).extra_field_len)
          = path ++ tsExtraField mt
        ∧ (mkEntryMem offset path data mt comment).metadata.take
            ((mkEntryMem offset path data mt comment).filename_len
              + (mkEntryMem offset path data mt comment).extra_field_len
              + (mkEntryMem offset path data mt comment).comment_len)
          = path ++ tsExtraField mt ++ comment) := by
  refine ⟨?_, ?_, ?_⟩
  · intro lt e
    refine ⟨?_, ?_, ?_⟩
    · simp [localHeaderBytes, sharedFieldTail, List.append_assoc]
    · simp [cdHeaderBytes, sharedFieldTail, List.append_assoc]
    · rw [List.take_take, Nat.min_eq_left (Nat.le_add_right _ _)]
  · intro offset path content mt comment
    rfl
  · intro offset path data mt comment hp hc
    have hfn : path.length % 2 ^ 16 = path.length := Nat.mod_eq_of_lt hp
    have hcm : comment.length % 2 ^ 16 = comment.length := Nat.mod_eq_of_lt hc
    have h9 : PICOZIP__ATTR_SIZE + PICOZIP__LOCAL_TIMESTAMP_SIZE = 9 := rfl
    constructor
    · show (entryMetadata path mt comment).take
          (path.length % 2 ^ 16 + (PICOZIP__ATTR_SIZE + PICOZIP__LOCAL_TIMESTAMP_SIZE))
          = path ++ tsExtraField mt
      rw [hfn, h9]
      exact entryMetadata_take_fn_ex path mt comment
    · show (entryMetadata path mt comment).take
          (path.length % 2 ^ 16 + (PICOZIP__ATTR_SIZE + PICOZIP__LOCAL_TIMESTAMP_SIZE)
            + comment.length % 2 ^ 16)
          = path ++ tsExtraField mt ++ comment
      rw [hfn, hcm, h9]
      exact entryMetadata_take_all path mt comment

/-- C3 (witness): the hypothesis-bearing part applied at a concrete
one-byte path and one-byte comment. -/
theorem claim_C3_witness :
    ([97] : Bytes).length < 2 ^ 16 ∧ ([98] : Bytes).length < 2 ^ 16
    ∧ (mkEntryMem 0 [97] none 5 [98]).metadata.take
        ((mkEntryMem 0 [97] none 5 [98]).filename_len
          + (mkEntryMem 0 [97] none 5 [98]).extra_field_len)
      = [97] ++ tsExtraField 5 :=
  ⟨by decide, by decide, (claim_C3.2.2 0 [97] none 5 [98] (by decide) (by decide)).1⟩

/-! ### Claim C5 -/

/-- C5 (counterexample): streaming the single byte `a` (0x61) under path
`t` emits a data descriptor whose CRC-32 field is `0x174841BC` — the
bitwise complement of the standard CRC-32 `0xE8B7BE43` of the content
actually read — so the descriptor's CRC-32 does not match the content's
standard CRC-32; the backfilled ledger value is the same complement. -/
theorem claim_C5_counterexample :
    (picozip_new_entry_file sinkTrue ltFixed zipInit [116] [97] 0 [] true).2.entries.map
        Entry.crc32 = [0x174841BC]
    ∧ (picozip_new_entry_file sinkTrue ltFixed zipInit [116] [97] 0 [] true).2.out.drop 41
      = le32 PICOZIP__DATADESC_MAGIC ++ le32 0x174841BC ++ le32 1 ++ le32 1
    ∧ crc32_ref [97] = 0xE8B7BE43
    ∧ (0x174841BC : Nat) ≠ 0xE8B7BE43 := by
  rw [new_entry_file_ok]
  decide

/-- C5 (amended): a successful streamed add emits the entry with flags
bit 3 set and zero CRC/size placeholders in its local header, followed
by the content and a 16-byte data descriptor with magic `0x08074b50`
whose two size fields hold the byte count actually read and whose
CRC-32 field holds the bitwise complement of the standard CRC-32 of the
content read; the same three values are backfilled into the ledger
entry for the central directory. -/
theorem claim_C5_amended (lt : Nat → Tm) (st : ZipFile) (path content : Bytes) (mt : Nat)
    (comment : Bytes) :
    (picozip_new_entry_file sinkTrue lt st path content mt comment true).1 = PICOZIP_OK
    ∧ (picozip_new_entry_file sinkTrue lt st path content mt comment true).2.entries
      = st.entries ++ [fileFinalEntry st.offset path content mt comment]
    ∧ (fileFinalEntry st.offset path content mt comment).flags = PICOZIP__FLAG_DATADESC
    ∧ (mkEntryFile st.offset path mt comment).crc32 = 0
    ∧ (mkEntryFile st.offset path mt comment).comp_size = 0
    ∧ (mkEntryFile st.offset path mt comment).uncomp_size = 0
    ∧ (picozip_new_entry_file sinkTrue lt st path content mt comment true).2.out
      = ((st.out ++ localBlock lt (mkEntryFile st.offset path mt comment)) ++ content)
        ++ dataDescBytes (fileFinalEntry st.offset path content mt comment)
    ∧ dataDescBytes (fileFinalEntry st.offset path content mt comment)
      = le32 PICOZIP__DATADESC_MAGIC
        ++ le32 ((crc32_ref content ^^^ 0xFFFFFFFF) % 2 ^ 32)
        ++ le32 (content.length % 2 ^ 32) ++ le32 (content.length % 2 ^ 32)
    ∧ (dataDescBytes (fileFinalEntry st.offset path content mt comment)).length = 16
    ∧ (fileFinalEntry st.offset path content mt comment).comp_size = content.length % 2 ^ 32
    ∧ (fileFinalEntry st.offset path content mt comment).uncomp_size = content.length % 2 ^ 32
    ∧ (fileFinalEntry st.offset path content mt comment).crc32
      = (crc32_ref content ^^^ 0xFFFFFFFF) % 2 ^ 32 := by
  have hcrc : (fileFinalEntry st.offset path content mt comment).crc32
      = (crc32_ref content ^^^ 0xFFFFFFFF) % 2 ^ 32 := by
    show (picozip__crc32 content PICOZIP__CRC_START ^^^ 0xFFFFFFFF) % 2 ^ 32 = _
    rw [picozip__crc32_standard]
  refine ⟨?_, ?_, rfl, rfl, rfl, rfl, ?_, ?_, ?_, rfl, rfl, hcrc⟩
  · rw [new_entry_file_ok]
  · rw [new_entry_file_ok]
  · rw [new_entry_file_ok]
  · rw [dataDescBytes, hcrc]
    rfl
  · exact dataDescBytes_length _

/-! ### Claim C10 -/

/-- C10: for the same content bytes, the known-size and the streamed
protocols record identical `crc32`, `comp_size` and `uncomp_size` in
their ledger entries (hence identical central-directory fields): both
sizes are the content length reduced to 32 bits (the length itself when
it fits), and both store the bitwise complement of the standard CRC-32
of the content. -/
theorem claim_C10 (lt : Nat → Tm) (st1 st2 : ZipFile) (path1 path2 : Bytes)
    (mt1 mt2 : Nat) (c1 c2 content : Bytes) :
    (picozip_new_entry_mem_ex sinkTrue lt st1 path1 (some content) mt1 c1 true).2.entries
      = st1.entries ++ [mkEntryMem st1.offset path1 (some content) mt1 c1]
    ∧ (picozip_new_entry_file sinkTrue lt st2 path2 content mt2 c2 true).2.entries
      = st2.entries ++ [fileFinalEntry st2.offset path2 content mt2 c2]
    ∧ (mkEntryMem st1.offset path1 (some content) mt1 c1).crc32
      = (fileFinalEntry st2.offset path2 content mt2 c2).crc32
    ∧ (mkEntryMem st1.offset path1 (some content) mt1 c1).comp_size
      = (fileFinalEntry st2.offset path2 content mt2 c2).comp_size
    ∧ (mkEntryMem st1.offset path1 (some content) mt1 c1).uncomp_size
      = (fileFinalEntry st2.offset path2 content mt2 c2).uncomp_size
    ∧ (mkEntryMem st1.offset path1 (some content) mt1 c1).comp_size = content.length % 2 ^ 32
    ∧ (mkEntryMem st1.offset path1 (some content) mt1 c1).crc32
      = (crc32_ref content ^^^ 0xFFFFFFFF) % 2 ^ 32
    ∧ (content.length < 2 ^ 32 →
        (mkEntryMem st1.offset path1 (some content) mt1 c1).comp_size = content.length) := by
  refine ⟨?_, ?_, rfl, rfl, rfl, rfl, ?_, ?_⟩
  · rw [new_entry_mem_ok]
  · rw [new_entry_file_ok]
  · show (picozip__crc32 ((some content).getD []) PICOZIP__CRC_START ^^^ 0xFFFFFFFF) % 2 ^ 32 = _
    rw [show (some content).getD [] = content from rfl, picozip__crc32_standard]
  · intro h
    exact Nat.mod_eq_of_lt h

/-- C10 (witness): the fits-in-32-bits conclusion at a concrete
two-byte content. -/
theorem claim_C10_witness :
    ([104, 105] : Bytes).length < 2 ^ 32
    ∧ (mkEntryMem 0 [97] (some [104, 105]) 0 []).comp_size = ([104, 105] : Bytes).length :=
  ⟨by decide,
    (claim_C10 ltFixed zipInit zipInit [97] [98] 0 0 [] [] [104, 105]).2.2.2.2.2.2.2
      (by decide)⟩

/-! ### Claim C2: sequences of successful add operations -/

/-- One add-entry operation (success path). -/
inductive AddOp where
  | mem (path : Bytes) (data : Option Bytes) (mod_time : Nat) (comment : Bytes)
  | stream (path : Bytes) (content : Bytes) (mod_time : Nat) (comment : Bytes)

/-- Apply one successful add against the always-accepting destination. -/
def applyOp (lt : Nat → Tm) (f : ZipFile) : AddOp → ZipFile
  | .mem p d mt c => (picozip_new_entry_mem_ex sinkTrue lt f p d mt c true).2
  | .stream p content mt c => (picozip_new_entry_file sinkTrue lt f p content mt c true).2

/-- Run a sequence of successful adds from a state. -/
def runAdds (lt : Nat → Tm) (f : ZipFile) (ops : List AddOp) : ZipFile :=
  ops.foldl (applyOp lt) f

/-- Content length an operation feeds the archive. -/
def opContentLen : AddOp → Nat
  | .mem _ d _ _ => (d.getD []).length
  | .stream _ content _ _ => content.length

/-- The ledger entry an operation appends when issued at a given write
offset. -/
def newEntry (offset : Nat) : AddOp → Entry
  | .mem p d mt c => mkEntryMem offset p d mt c
  | .stream p content mt c => fileFinalEntry offset p content mt c

/-- Exact number of stream bytes one operation emits: 30-byte local
header, filename and extra field as flushed, content, and the 16-byte
data descriptor for the streamed protocol. -/
def opDiskLen : AddOp → Nat
  | .mem p d _ _ =>
      PICOZIP__LOCAL_HEADER_SIZE + (p.length % 2 ^ 16 + 9) + (d.getD []).length
  | .stream p content _ _ =>
      PICOZIP__LOCAL_HEADER_SIZE + (p.length % 2 ^ 16 + 9) + content.length
        + PICOZIP__DATADESC_SIZE

/-- On-disk size of an entry as recorded in the ledger. -/
def entryDiskSize (e : Entry) : Nat :=
  PICOZIP__LOCAL_HEADER_SIZE + e.filename_len + e.extra_field_len + e.comp_size
    + (if e.flags &&& PICOZIP__FLAG_DATADESC = 0 then 0 else PICOZIP__DATADESC_SIZE)

/-- The ledger entries sit back to back: the first at `start`, each next
at the previous entry's offset plus its exact on-disk size, and the
last one ends exactly at `endOff`. -/
def ledgerChainFrom : Nat → List Entry → Nat → Prop
  | start, [], endOff => start = endOff
  | start, e :: rest, endOff =>
      e.header_offset = start ∧ ledgerChainFrom (start + entryDiskSize e) rest endOff

theorem localBlock_length_mkEntryMem (lt : Nat → Tm) (o : Nat) (p : Bytes)
    (d : Option Bytes) (mt : Nat) (c : Bytes) :
    (localBlock lt (mkEntryMem o p d mt c)).length
      = PICOZIP__LOCAL_HEADER_SIZE + (p.length % 2 ^ 16 + 9) := by
  have h1 : p.length % 2 ^ 16 ≤ p.length := Nat.mod_le _ _
  simp [localBlock, localHeaderBytes_length, mkEntryMem, entryMetadata, tsExtraField_length,
    PICOZIP__ATTR_SIZE, PICOZIP__LOCAL_TIMESTAMP_SIZE]
  omega

theorem localBlock_length_mkEntryFile (lt : Nat → Tm) (o : Nat) (p : Bytes) (mt : Nat)
    (c : Bytes) :
    (localBlock lt (mkEntryFile o p mt c)).length
      = PICOZIP__LOCAL_HEADER_SIZE + (p.length % 2 ^ 16 + 9) := by
  have h1 : p.length % 2 ^ 16 ≤ p.length := Nat.mod_le _ _
  simp [localBlock, localHeaderBytes_length, mkEntryFile, entryMetadata, tsExtraField_length,
    PICOZIP__ATTR_SIZE, PICOZIP__LOCAL_TIMESTAMP_SIZE]
  omega

theorem applyOp_offset (lt : Nat → Tm) (f : ZipFile) (op : AddOp) :
    (applyOp lt f op).offset = f.offset + opDiskLen op := by
  cases op with
  | mem p d mt c =>
    rw [applyOp, new_entry_mem_ok]
    simp only [opDiskLen, localBlock_length_mkEntryMem]
  | stream p content mt c =>
    rw [applyOp, new_entry_file_ok]
    simp only [opDiskLen, localBlock_length_mkEntryFile]
    omega

theorem applyOp_out (lt : Nat → Tm) (f : ZipFile) (op : AddOp) :
    (applyOp lt f op).out.length = f.out.length + opDiskLen op := by
  cases op with
  | mem p d mt c =>
    rw [applyOp, new_entry_mem_ok]
    simp only [List.length_append, opDiskLen, localBlock_length_mkEntryMem]
    omega
  | stream p content mt c =>
    rw [applyOp, new_entry_file_ok]
    simp only [List.length_append, opDiskLen, localBlock_length_mkEntryFile,
      dataDescBytes_length]
    omega

theorem applyOp_entries (lt : Nat → Tm) (f : ZipFile) (op : AddOp) :
    (applyOp lt f op).entries = f.entries ++ [newEntry f.offset op] := by
  cases op with
  | mem p d mt c => rw [applyOp, new_entry_mem_ok, newEntry]
  | stream p content mt c => rw [applyOp, new_entry_file_ok, newEntry]

theorem newEntry_header_offset (offset : Nat) (op : AddOp) :
    (newEntry offset op).header_offset = offset % 2 ^ 32 := by
  cases op <;> rfl

theorem newEntry_diskSize (offset : Nat) (op : AddOp) (h : opContentLen op < 2 ^ 32) :
    entryDiskSize (newEntry offset op) = opDiskLen op := by
  cases op with
  | mem p d mt c =>
    simp only [opContentLen] at h
    simp only [newEntry, entryDiskSize, mkEntryMem, opDiskLen, PICOZIP__ATTR_SIZE,
      PICOZIP__LOCAL_TIMESTAMP_SIZE, Nat.mod_eq_of_lt h]
    norm_num [PICOZIP__FLAG_DATADESC]
    omega
  | stream p content mt c =>
    simp only [opContentLen] at h
    simp only [newEntry, entryDiskSize, fileFinalEntry, mkEntryFile, opDiskLen,
      PICOZIP__ATTR_SIZE, PICOZIP__LOCAL_TIMESTAMP_SIZE, Nat.mod_eq_of_lt h]
    norm_num [PICOZIP__FLAG_DATADESC, PICOZIP__DATADESC_SIZE]
    omega

theorem runAdds_offset_mono (lt : Nat → Tm) :
    ∀ (ops : List AddOp) (f : ZipFile), f.offset ≤ (runAdds lt f ops).offset := by
  intro ops
  induction ops with
  | nil => intro f; exact Nat.le_refl _
  | cons op rest ih =>
    intro f
    calc f.offset ≤ (applyOp lt f op).offset := by
          rw [applyOp_offset]; exact Nat.le_add_right _ _
      _ ≤ (runAdds lt (applyOp lt f op) rest).offset := ih _

theorem ledgerChainFrom_append (e : Entry) :
    ∀ (es : List Entry) (base off : Nat), ledgerChainFrom base es off →
      e.header_offset = off →
      ledgerChainFrom base (es ++ [e]) (off + entryDiskSize e) := by
  intro es
  induction es with
  | nil =>
    intro base off hch he
    simp only [ledgerChainFrom] at hch
    subst hch
    exact ⟨he, rfl⟩
  | cons a rest ih =>
    intro base off hch he
    exact ⟨hch.1, ih _ _ hch.2 he⟩

theorem runAdds_invariant (lt : Nat → Tm) :
    ∀ (ops : List AddOp) (f : ZipFile) (base : Nat),
      f.offset = f.out.length → ledgerChainFrom base f.entries f.offset →
      (∀ op ∈ ops, opContentLen op < 2 ^ 32) →
      (runAdds lt f ops).offset < 2 ^ 32 →
      (runAdds lt f ops).offset = (runAdds lt f ops).out.length
      ∧ ledgerChainFrom base (runAdds lt f ops).entries (runAdds lt f ops).offset := by
  intro ops
  induction ops with
  | nil =>
    intro f base h1 h2 _ _
    exact ⟨h1, h2⟩
  | cons op rest ih =>
    intro f base h1 h2 hfit hoff
    have hstep : runAdds lt f (op :: rest) = runAdds lt (applyOp lt f op) rest := rfl
    rw [hstep] at hoff ⊢
    have hofflt : f.offset < 2 ^ 32 := by
      have hmono := runAdds_offset_mono lt rest (applyOp lt f op)
      have := applyOp_offset lt f op
      omega
    have h1' : (applyOp lt f op).offset = (applyOp lt f op).out.length := by
      rw [applyOp_offset, applyOp_out, h1]
    have h2' : ledgerChainFrom base (applyOp lt f op).entries (applyOp lt f op).offset := by
      rw [applyOp_entries, applyOp_offset,
        ← newEntry_diskSize f.offset op (hfit op (List.mem_cons_self op rest))]
      refine ledgerChainFrom_append _ _ _ _ h2 ?_
      rw [newEntry_header_offset, Nat.mod_eq_of_lt hofflt]
    exact ih _ base h1' h2' (fun o ho => hfit o (List.mem_cons_of_mem op ho)) hoff

theorem ledgerChainFrom_adjacent :
    ∀ (es : List Entry) (base endOff : Nat), ledgerChainFrom base es endOff →
      ∀ (i : Nat) (h1 : i < es.length) (h2 : i + 1 < es.length),
        (es.get ⟨i + 1, h2⟩).header_offset
          = (es.get ⟨i, h1⟩).header_offset + entryDiskSize (es.get ⟨i, h1⟩) := by
  intro es
  induction es with
  | nil =>
    intro base endOff _ i h1
    exact absurd h1 (by simp)
  | cons e rest ih =>
    intro base endOff hch i h1 h2
    cases i with
    | zero =>
      cases rest with
      | nil => exact absurd h2 (by simp)
      | cons r rrest =>
        have hr : r.header_offset = base + entryDiskSize e := hch.2.1
        have he : e.header_offset = base := hch.1
        simp only [List.get]
        rw [hr, he]
    | succ j =>
      have h1' : j < rest.length := by simp at h1; omega
      have h2' : j + 1 < rest.length := by simp at h2; omega
      exact ih _ _ hch.2 j h1' h2'

/-- C2: after any sequence of successful add operations from a fresh
session, the write offset equals the total bytes the destination has
accepted, the ledger offsets chain exactly — entry 0 at offset 0, the
recorded `header_offset` of entry `i+1` equals that of entry `i` plus
entry `i`'s exact on-disk size (30-byte local header + flushed filename
and extra field + content, plus the 16-byte data descriptor when flags
bit 3 is set), and the last entry ends exactly at the final write
offset — provided the archive fits the 32-bit offset fields (no ZIP64). -/
theorem claim_C2 (lt : Nat → Tm) (ops : List AddOp)
    (hfit : ∀ op ∈ ops, opContentLen op < 2 ^ 32)
    (hoff : (runAdds lt zipInit ops).offset < 2 ^ 32) :
    (runAdds lt zipInit ops).offset = (runAdds lt zipInit ops).out.length
    ∧ ledgerChainFrom 0 (runAdds lt zipInit ops).entries (runAdds lt zipInit ops).offset
    ∧ ∀ (i : Nat) (h1 : i < (runAdds lt zipInit ops).entries.length)
        (h2 : i + 1 < (runAdds lt zipInit ops).entries.length),
        ((runAdds lt zipInit ops).entries.get ⟨i + 1, h2⟩).header_offset
          = ((runAdds lt zipInit ops).entries.get ⟨i, h1⟩).header_offset
            + entryDiskSize ((runAdds lt zipInit ops).entries.get ⟨i, h1⟩) := by
  have hinv := runAdds_invariant lt ops zipInit 0 rfl rfl hfit hoff
  exact ⟨hinv.1, hinv.2, ledgerChainFrom_adjacent _ _ _ hinv.2⟩

/-- C2 (witness): two concrete known-size adds (a one-byte file and a
directory marker) chained from a fresh session. -/
theorem claim_C2_witness :
    (∀ op ∈ [AddOp.mem [97] (some [104]) 0 [], AddOp.mem [100, 47] none 0 []],
      opContentLen op < 2 ^ 32)
    ∧ (runAdds ltFixed zipInit
        [AddOp.mem [97] (some [104]) 0 [], AddOp.mem [100, 47] none 0 []]).offset < 2 ^ 32
    ∧ (runAdds ltFixed zipInit
        [AddOp.mem [97] (some [104]) 0 [], AddOp.mem [100, 47] none 0 []]).offset
      = (runAdds ltFixed zipInit
        [AddOp.mem [97] (some [104]) 0 [], AddOp.mem [100, 47] none 0 []]).out.length :=
  ⟨by decide, by decide,
    (claim_C2 ltFixed [AddOp.mem [97] (some [104]) 0 [], AddOp.mem [100, 47] none 0 []]
      (by decide) (by decide)).1⟩

/-! ### Claim C4 -/

theorem cdBlocks_length (lt : Nat → Tm) :
    ∀ (es : List Entry),
      (∀ e ∈ es, e.filename_len + e.extra_field_len + e.comment_len ≤ e.metadata.length) →
      (cdBlocks lt es).length = cdSizeCount es := by
  intro es
  induction es with
  | nil => intro _; rfl
  | cons e rest ih =>
    intro hmeta
    have he := hmeta e (List.mem_cons_self e rest)
    have hrest := ih fun x hx => hmeta x (List.mem_cons_of_mem e hx)
    simp only [cdBlocks, List.map_cons, List.flatten_cons, List.length_append, cdBlock,
      cdHeaderBytes_length, List.length_take, cdSizeCount, List.foldr_cons]
    simp only [cdBlocks] at hrest
    rw [hrest]
    simp only [cdSizeCount]
    omega

/-- C4: finalizing against an always-accepting destination succeeds and
appends the central-directory records in ledger order followed by the
EOCD and the archive comment; the EOCD's declared central-directory
size equals the exact number of bytes written for the records, its
declared offset is the session's write offset at the moment the central
directory began, both entry-count fields hold the ledger length, and a
fresh session finalized with no comment emits exactly the 22-byte EOCD
with every counter zero. -/
theorem claim_C4 (lt : Nat → Tm) (st : ZipFile) (comment : Option Bytes)
    (hmeta : ∀ e ∈ st.entries,
      e.filename_len + e.extra_field_len + e.comment_len ≤ e.metadata.length) :
    (picozip_end_ex sinkTrue lt st comment).1 = PICOZIP_OK
    ∧ (picozip_end_ex sinkTrue lt st comment).2.out
      = ((st.out ++ cdBlocks lt st.entries)
        ++ eocdBytes st.entries.length (cdSizeCount st.entries) st.offset
          (comment.getD []).length) ++ comment.getD []
    ∧ cdSizeCount st.entries = (cdBlocks lt st.entries).length
    ∧ (∀ (n s o c : Nat), eocdBytes n s o c
        = le32 PICOZIP__EOCD_MAGIC ++ le16 0 ++ le16 0 ++ le16 n ++ le16 n ++ le32 s
          ++ le32 o ++ le16 c)
    ∧ picozip_end_ex sinkTrue lt zipInit none
      = (PICOZIP_OK,
        { offset := 22,
          entries := [],
          out := [0x50, 0x4b, 0x05, 0x06, 0, 0, 0, 0, 0, 0, 0, 0, 0, 0, 0, 0, 0, 0, 0, 0,
            0, 0] }) := by
  refine ⟨?_, ?_, ?_, fun n s o c => rfl, rfl⟩
  · rw [end_ex_sinkTrue]
  · rw [end_ex_sinkTrue]
  · rw [cdBlocks_length lt st.entries hmeta]

/-- C4 (witness): finalizing a session holding one concrete entry. -/
theorem claim_C4_witness :
    (∀ e ∈ (picozip_new_entry_mem_ex sinkTrue ltFixed zipInit [97] (some [104, 105]) 0 []
        true).2.entries,
      e.filename_len + e.extra_field_len + e.comment_len ≤ e.metadata.length)
    ∧ cdSizeCount (picozip_new_entry_mem_ex sinkTrue ltFixed zipInit [97] (some [104, 105])
        0 [] true).2.entries
      = (cdBlocks ltFixed (picozip_new_entry_mem_ex sinkTrue ltFixed zipInit [97]
          (some [104, 105]) 0 [] true).2.entries).length :=
  ⟨by decide,
    (claim_C4 ltFixed
      (picozip_new_entry_mem_ex sinkTrue ltFixed zipInit [97] (some [104, 105]) 0 [] true).2
      none (by decide)).2.2.1⟩

/-! ### Claim C8 -/

theorem pzFlush_entries_eq (sink : Sink) (f : ZipFile) (src : Bytes) (ok : Bool)
    (g : ZipFile) (h : pzFlush sink f src = (ok, g)) : g.entries = f.entries := by
  have h0 := pzFlush_entries sink f src
  rw [h] at h0
  exact h0

/-- Unfolding of the known-size add once allocation has succeeded. -/
theorem new_entry_mem_allocTrue (sink : Sink) (lt : Nat → Tm) (f : ZipFile) (path : Bytes)
    (data : Option Bytes) (mod_time : Nat) (comment : Bytes) :
    picozip_new_entry_mem_ex sink lt f path data mod_time comment true
      = (match picozip__write_local_entry sink lt
            { f with entries := f.entries ++ [mkEntryMem f.offset path data mod_time comment] }
            (mkEntryMem f.offset path data mod_time comment) with
        | (false, f2) => ( PICOZIP_EIO, { f2 with entries := f2.entries.dropLast })
        | (true, f2) =>
          match pzFlush sink f2 (data.getD []) with
          | (false, f3) => ( PICOZIP_EIO, { f3 with entries := f3.entries.dropLast })
          | (true, f3) => (PICOZIP_OK, f3)) := rfl

/-- Unfolding of the streamed add once allocation has succeeded. -/
theorem new_entry_file_allocTrue (sink : Sink) (lt : Nat → Tm) (f : ZipFile) (path : Bytes)
    (content : Bytes) (mod_time : Nat) (comment : Bytes) :
    picozip_new_entry_file sink lt f path content mod_time comment true
      = (match picozip__write_local_entry sink lt
            { f with entries := f.entries ++ [mkEntryFile f.offset path mod_time comment] }
            (mkEntryFile f.offset path mod_time comment) with
        | (false, f2) => ( PICOZIP_EIO, { f2 with entries := f2.entries.dropLast })
        | (true, f2) =>
          match picozip__stream_chunks sink f2 PICOZIP__CRC_START 0 content with
          | (false, f3, _, _) => ( PICOZIP_EIO, { f3 with entries := f3.entries.dropLast })
          | (true, f3, crc1, file_size) =>
            match pzFlush sink
                { f3 with entries := f3.entries.dropLast
                  ++ [{ mkEntryFile f.offset path mod_time comment with
                        crc32 := (crc1 ^^^ 0xFFFFFFFF) % 2 ^ 32,
                        comp_size := file_size % 2 ^ 32,
                        uncomp_size := file_size % 2 ^ 32 }] }
                (dataDescBytes { mkEntryFile f.offset path mod_time comment with
                  crc32 := (crc1 ^^^ 0xFFFFFFFF) % 2 ^ 32,
                  comp_size := file_size % 2 ^ 32,
                  uncomp_size := file_size % 2 ^ 32 }) with
            | (false, f5) => ( PICOZIP_EIO, { f5 with entries := f5.entries.dropLast })
            | (true, f5) => (PICOZIP_OK, f5)) := rfl

/-- C8: a failed add-entry leaves the ledger as it was and the session
usable. With allocation failing, either protocol reports
`PICOZIP_ENOMEM` and changes nothing (no bytes, ledger intact). With
any destination, whenever either protocol reports `PICOZIP_EIO` the
just-appended ledger entry has been discarded (the ledger equals its
prior value, so the entry count is restored), and a subsequent
known-size add against an accepting destination still succeeds —
there is no failed/closed state. -/
theorem claim_C8 (sink : Sink) (lt : Nat → Tm) (st : ZipFile) (path : Bytes)
    (data : Option Bytes) (content : Bytes) (mt : Nat) (comment : Bytes) :
    picozip_new_entry_mem_ex sink lt st path data mt comment false = (PICOZIP_ENOMEM, st)
    ∧ picozip_new_entry_file sink lt st path content mt comment false = (PICOZIP_ENOMEM, st)
    ∧ ((picozip_new_entry_mem_ex sink lt st path data mt comment true).1 = PICOZIP_EIO →
        (picozip_new_entry_mem_ex sink lt st path data mt comment true).2.entries
          = st.entries)
    ∧ ((picozip_new_entry_file sink lt st path content mt comment true).1 = PICOZIP_EIO →
        (picozip_new_entry_file sink lt st path content mt comment true).2.entries
          = st.entries)
    ∧ (∀ st2 : ZipFile,
        (picozip_new_entry_mem_ex sinkTrue lt st2 path data mt comment true).1
          = PICOZIP_OK) := by
  refine ⟨rfl, rfl, ?_, ?_, ?_⟩
  · intro hEIO
    rw [new_entry_mem_allocTrue] at hEIO ⊢
    split at hEIO
    next f2 heq =>
      have h0 := write_local_entry_entries sink lt
        { st with entries := st.entries ++ [mkEntryMem st.offset path data mt comment] }
        (mkEntryMem st.offset path data mt comment)
      rw [heq] at h0
      simp only at h0 ⊢
      rw [h0, List.dropLast_concat]
    next f2 heq =>
      have h0 := write_local_entry_entries sink lt
        { st with entries := st.entries ++ [mkEntryMem st.offset path data mt comment] }
        (mkEntryMem st.offset path data mt comment)
      rw [heq] at h0
      simp only at h0
      split at hEIO
      next f3 heq2 =>
        have h1 := pzFlush_entries sink f2 (data.getD [])
        rw [heq2] at h1
        simp only at h1 ⊢
        rw [h1, h0, List.dropLast_concat]
      next f3 heq2 =>
        simp only at hEIO
        exact absurd hEIO (by decide)
  · intro hEIO
    rw [new_entry_file_allocTrue] at hEIO ⊢
    split at hEIO
    next f2 heq =>
      have h0 := write_local_entry_entries sink lt
        { st with entries := st.entries ++ [mkEntryFile st.offset path mt comment] }
        (mkEntryFile st.offset path mt comment)
      rw [heq] at h0
      simp only at h0 ⊢
      rw [h0, List.dropLast_concat]
    next f2 heq =>
      have h0 := write_local_entry_entries sink lt
        { st with entries := st.entries ++ [mkEntryFile st.offset path mt comment] }
        (mkEntryFile st.offset path mt comment)
      rw [heq] at h0
      simp only at h0
      split at hEIO
      next f3 c1 s1 heq2 =>
        have h1 := stream_chunks_entries sink content.length content (Nat.le_refl _) f2
          PICOZIP__CRC_START 0
        rw [heq2] at h1
        simp only at h1 ⊢
        rw [h1, h0, List.dropLast_concat]
      next f3 crc1 fsz heq2 =>
        have h1 := stream_chunks_entries sink content.length content (Nat.le_refl _) f2
          PICOZIP__CRC_START 0
        rw [heq2] at h1
        simp only at h1
        split at hEIO
        next f5 heq3 =>
          have h2 := pzFlush_entries_eq _ _ _ _ _ heq3
          simp only at h2 ⊢
          rw [h2, List.dropLast_concat, h1, h0, List.dropLast_concat]
        next f5 heq3 =>
          simp only at hEIO
          exact absurd hEIO (by decide)
  · intro st2
    rw [new_entry_mem_ok]

/-- A destination that rejects the very first write of a session (any
flush issued at stream offset 0) and accepts everything after. -/
def sinkFailFirst : Sink := fun off _ => decide (0 < off)

/-- C8 (witness): against `sinkFailFirst` a concrete known-size add
reports `PICOZIP_EIO` with the ledger restored, and with a failing
allocator it reports `PICOZIP_ENOMEM` leaving the state untouched. -/
theorem claim_C8_witness :
    (picozip_new_entry_mem_ex sinkFailFirst ltFixed zipInit [97] (some [104]) 0 [] true).1
      = PICOZIP_EIO
    ∧ (picozip_new_entry_mem_ex sinkFailFirst ltFixed zipInit [97] (some [104]) 0 []
        true).2.entries = zipInit.entries
    ∧ picozip_new_entry_mem_ex sinkFailFirst ltFixed zipInit [97] (some [104]) 0 [] false
      = (PICOZIP_ENOMEM, zipInit) :=
  ⟨by decide,
    (claim_C8 sinkFailFirst ltFixed zipInit [97] (some [104]) [] 0 []).2.2.1 (by decide),
    (claim_C8 sinkFailFirst ltFixed zipInit [97] (some [104]) [] 0 []).1⟩

end Picozip
